import Mathlib

/-
Verification of the `.blobify` validator core
(`validateBlobifyFile` and `parseFilterCSV` in `src/extension.ts`).

Lines are modelled as lists of characters (`Str`); a document is the list
of lines that `text.split("\n")` produces.  Diagnostic messages are an
inductive type with one constructor per `diagnosticItems.push` site of the
source; the payload of a constructor is the interpolated part of the
message.  Ranges always span the whole producing line in the source, so a
diagnostic is modelled by its line number, message and severity.
-/

abbrev Str := List Char

/-- Characters removed by the host string `trim` on the inputs considered. -/
def wsChar (c : Char) : Bool := c == ' ' || c == '\t' || c == '\r' || c == '\n'

def trim (s : Str) : Str := ((s.dropWhile wsChar).reverse.dropWhile wsChar).reverse

/-- Characters of a Lean string literal, used to write concrete lines. -/
def chars (s : String) : Str := s.data

inductive Severity where
  | error
  | warning
  | information
deriving DecidableEq

/-- One constructor per `diagnosticItems.push` site of `validateBlobifyFile`. -/
inductive Msg where
  | emptyContextName
  | duplicateContextName (name : Str)
  | parentNotFound (parent : Str)
  | cannotRedefineDefault
  | filterNameEmpty
  | invalidRegex (engineMsg : Str)
  | considerCSV (name : Str) (regex : Str)
  | invalidFilterSyntax
  | invalidOptionSyntax
  | boolOptionWarning (name : Str)
  | listPatternsWarning
  | emptyPattern
  | invalidSyntax
deriving DecidableEq

structure Diagnostic where
  line : Nat
  msg : Msg
  severity : Severity
deriving DecidableEq

/-- The regex `^([^:]+):(.+)$`: the part before the first colon (nonempty)
and the part after it (nonempty).  Used by the source both for context
headers and for legacy filters. -/
def splitFirstColon : Str → Option (Str × Str)
  | [] => none
  | c :: rest =>
    if c = ':' then some ([], rest)
    else
      match splitFirstColon rest with
      | some (a, b) => some (c :: a, b)
      | none => none

def matchHeadColonRest (s : Str) : Option (Str × Str) :=
  match splitFirstColon s with
  | some (a, b) => if a ≠ [] ∧ b ≠ [] then some (a, b) else none
  | none => none

/-- The host `split(",")`. -/
def splitOnComma : Str → List Str
  | [] => [[]]
  | c :: rest =>
    if c = ',' then [] :: splitOnComma rest
    else
      match splitOnComma rest with
      | f :: fs => (c :: f) :: fs
      | [] => [[c]]

/-- `parentsList.split(",").map(p => p.trim()).filter(p => p)`. -/
def parseParentTokens (s : Str) : List Str :=
  ((splitOnComma s).map trim).filter (fun p => p ≠ [])

/-- The context name the validator extracts from a header interior:
`match(/^([^:]+):(.+)$/)` gives the trimmed first group, otherwise the
interior is taken verbatim. -/
def headerName (interior : Str) : Str :=
  match matchHeadColonRest interior with
  | some (a, _) => trim a
  | none => interior

/-- The parent tokens the validator extracts from a header interior. -/
def headerParents (interior : Str) : List Str :=
  match matchHeadColonRest interior with
  | some (_, b) => parseParentTokens b
  | none => []

structure ScanState where
  contextNames : List Str
  definedContexts : List Str
deriving DecidableEq

def initState : ScanState := { contextNames := [], definedContexts := [chars "default"] }

/-- The per-parent check of the header branch: one Error for each parent
token absent from the defined set. -/
def parentDiags (i : Nat) (defs : List Str) (parents : List Str) : List Diagnostic :=
  parents.filterMap (fun p =>
    if p ∈ defs then none else some ⟨i, Msg.parentNotFound p, Severity.error⟩)

/-- The context-header branch of the scan loop, applied to the interior
`trimmedLine.slice(1, -1)`.  Mirrors the source: the header's own name is
added to `definedContexts` before its parent references are checked, and
the redefinition check for `default` runs after the parent checks. -/
def processHeader (st : ScanState) (i : Nat) (interior : Str) : ScanState × List Diagnostic :=
  match matchHeadColonRest interior with
  | some (g1, g2) =>
    if trim g1 = [] then
      (st, [⟨i, Msg.emptyContextName, Severity.error⟩])
    else if trim g1 ∈ st.contextNames then
      (st, [⟨i, Msg.duplicateContextName (trim g1), Severity.error⟩])
    else
      (⟨trim g1 :: st.contextNames, trim g1 :: st.definedContexts⟩,
        parentDiags i (trim g1 :: st.definedContexts) (parseParentTokens g2) ++
          (if trim g1 = chars "default" then [⟨i, Msg.cannotRedefineDefault, Severity.error⟩]
           else []))
  | none =>
    if interior = [] then
      (st, [⟨i, Msg.emptyContextName, Severity.error⟩])
    else if interior ∈ st.contextNames then
      (st, [⟨i, Msg.duplicateContextName interior, Severity.error⟩])
    else
      (⟨interior :: st.contextNames, interior :: st.definedContexts⟩,
        if interior = chars "default" then [⟨i, Msg.cannotRedefineDefault, Severity.error⟩]
        else [])

/-- Modelled from the spec: the external `csv-parse` library configured
with quote `"`, delimiter `,`, escape `\` — standard CSV quoting and
escaping rules with comma delimiter and backslash escape character.  This
scans a quoted field after its opening quote: the escape character before
a quote or another escape yields that character literally, otherwise it is
kept as a normal character; an unterminated field is a parse error. -/
def csvQuotedAux : Nat → Str → Option (Str × Str)
  | 0, _ => none
  | _, [] => none
  | fuel + 1, c :: rest =>
    if c = '"' then some ([], rest)
    else if c = '\\' then
      match rest with
      | [] => none
      | d :: rest2 =>
        if d = '"' ∨ d = '\\' then (csvQuotedAux fuel rest2).map (fun p => (d :: p.1, p.2))
        else (csvQuotedAux fuel rest).map (fun p => (c :: p.1, p.2))
    else (csvQuotedAux fuel rest).map (fun p => (c :: p.1, p.2))

def csvQuoted (s : Str) : Option (Str × Str) := csvQuotedAux (s.length + 1) s

/-- Modelled from the spec: the fields of the single CSV record of a line.
A field is either quoted (see `csvQuoted`; stray content after the closing
quote is a parse error) or unquoted up to the next comma (a quote inside
an unquoted field is a parse error).  The fuel is an upper bound on the
recursion depth, one unit per field. -/
def csvFieldsAux : Nat → Str → Option (List Str)
  | 0, _ => none
  | fuel + 1, s =>
    match s with
    | '"' :: rest =>
      match csvQuoted rest with
      | none => none
      | some (f, r) =>
        match r with
        | [] => some [f]
        | ',' :: r2 => (csvFieldsAux fuel r2).map (fun fs => f :: fs)
        | _ => none
    | _ =>
      let f := s.takeWhile (fun c => c ≠ ',')
      let r := s.dropWhile (fun c => c ≠ ',')
      if '"' ∈ f then none
      else
        match r with
        | [] => some [f]
        | _ :: r2 => (csvFieldsAux fuel r2).map (fun fs => f :: fs)

def csvFields (s : Str) : Option (List Str) := csvFieldsAux (s.length + 1) s

/-- `parseFilterCSV` of the source: the content qualifies only if its trim
starts and ends with a quote; the parse must yield one record of 2 or 3
fields, none of which is blank after trimming.  (A single line always
yields at most one record, so the source's record-count check is the
success of the parse itself.) -/
def parseFilterCSV (filterContent : Str) : Option (List Str) :=
  if (trim filterContent).head? = some '"' ∧ (trim filterContent).getLast? = some '"' then
    match csvFields (trim filterContent) with
    | none => none
    | some row =>
      if 2 ≤ row.length ∧ row.length ≤ 3 then
        if row.any (fun seg => trim seg = []) then none else some row
      else none
  else none

/-- `regexPattern.replace(/\\\\/g, "\\")`: one left-to-right round of
replacing each doubled backslash by a single backslash. -/
def unescapeBackslashes : Str → Str
  | '\\' :: '\\' :: rest => '\\' :: unescapeBackslashes rest
  | c :: rest => c :: unescapeBackslashes rest
  | [] => []

/-- Modelled from the spec: the host regex engine (`new RegExp`), external
to the repository.  Compilation succeeds iff group parentheses balance
(an escaped character never opens or closes a group); on failure the
result carries the engine's message.  This captures the compile-versus-
fail distinction and the message propagation the validator relies on. -/
def regexCompileAux : Nat → Str → Except Str Unit
  | depth, [] => if depth = 0 then Except.ok () else Except.error (chars "Unterminated group")
  | depth, '\\' :: _ :: rest => regexCompileAux depth rest
  | depth, '(' :: rest => regexCompileAux (depth + 1) rest
  | depth, ')' :: rest =>
    if depth = 0 then Except.error (chars "Unmatched close paren")
    else regexCompileAux (depth - 1) rest
  | depth, _ :: rest => regexCompileAux depth rest

def regexCompile (s : Str) : Except Str Unit := regexCompileAux 0 s

/-- The `try/catch` around `new RegExp`: a compile failure becomes one
Error carrying the engine's message. -/
def regexDiag (i : Nat) (r : Except Str Unit) : List Diagnostic :=
  match r with
  | Except.ok _ => []
  | Except.error m => [⟨i, Msg.invalidRegex m, Severity.error⟩]

/-- The diagnostics of a `@filter=` line, as a function of the content
after the marker. -/
def filterDiags (i : Nat) (filterContent : Str) : List Diagnostic :=
  match parseFilterCSV filterContent with
  | some row =>
    if 2 ≤ row.length ∧ row.length ≤ 3 then
      (if trim (row.getD 0 []) = [] then [⟨i, Msg.filterNameEmpty, Severity.error⟩] else []) ++
        regexDiag i (regexCompile (unescapeBackslashes (row.getD 1 [])))
    else [⟨i, Msg.invalidFilterSyntax, Severity.error⟩]
  | none =>
    match matchHeadColonRest filterContent with
    | some (filterName, regexPattern) =>
      (if trim filterName = [] then [⟨i, Msg.filterNameEmpty, Severity.error⟩] else []) ++
        regexDiag i (regexCompile regexPattern) ++
        [⟨i, Msg.considerCSV filterName regexPattern, Severity.information⟩]
    | none => [⟨i, Msg.invalidFilterSyntax, Severity.error⟩]

def optChar (c : Char) : Bool := c.isAlpha || c == '-' || c == '_'

/-- The regex `^@([a-zA-Z-_]+)(?:=(.+))?$` on the trimmed line: the
identifier and, when `=` follows, its (nonempty) value. -/
def optionMatch (t : Str) : Option (Str × Option Str) :=
  match t with
  | '@' :: rest =>
    let name := rest.takeWhile optChar
    let after := rest.dropWhile optChar
    if name = [] then none
    else
      match after with
      | [] => some (name, none)
      | '=' :: v => if v = [] then none else some (name, some v)
      | _ => none
  | _ => none

def booleanOptions : List Str :=
  [chars "copy-to-clipboard", chars "debug", chars "enable-scrubbing",
   chars "output-line-numbers", chars "output-index", chars "output-content",
   chars "output-metadata", chars "show-excluded", chars "suppress-timestamps"]

/-- The diagnostics of a non-filter `@` line. -/
def optionDiags (i : Nat) (t : Str) : List Diagnostic :=
  match optionMatch t with
  | none => [⟨i, Msg.invalidOptionSyntax, Severity.error⟩]
  | some (name, value?) =>
    (match value? with
     | some v =>
       if name ∈ booleanOptions ∧ v ≠ chars "true" ∧ v ≠ chars "false" then
         [⟨i, Msg.boolOptionWarning name, Severity.warning⟩]
       else []
     | none => []) ++
    (match value? with
     | some v =>
       if name = chars "list-patterns" ∧ v ≠ chars "none" ∧ v ≠ chars "ignored" ∧
           v ≠ chars "contexts" then
         [⟨i, Msg.listPatternsWarning, Severity.warning⟩]
       else []
     | none => [])

/-- The body of the scan loop of `validateBlobifyFile` for one line,
threading the two name sets and returning the line's diagnostics. -/
def processLine (st : ScanState) (i : Nat) (line : Str) : ScanState × List Diagnostic :=
  if trim line = [] then (st, [])
  else if (trim line).head? = some '#' then (st, [])
  else if (trim line).head? = some '[' ∧ (trim line).getLast? = some ']' then
    processHeader st i (((trim line).drop 1).dropLast)
  else if (chars "@filter=").isPrefixOf (trim line) then
    (st, filterDiags i ((trim line).drop 8))
  else if (trim line).head? = some '@' then
    (st, optionDiags i (trim line))
  else if (trim line).head? = some '+' ∨ (trim line).head? = some '-' then
    (st, if trim ((trim line).drop 1) = [] then [⟨i, Msg.emptyPattern, Severity.error⟩] else [])
  else (st, [⟨i, Msg.invalidSyntax, Severity.error⟩])

def validateAux (st : ScanState) (i : Nat) : List Str → List Diagnostic
  | [] => []
  | l :: rest => (processLine st i l).2 ++ validateAux (processLine st i l).1 (i + 1) rest

/-- The whole-document validator: the ordered diagnostics of a document
given as its list of lines. -/
def validateBlobifyFile (doc : List Str) : List Diagnostic := validateAux initState 0 doc

def scanAux (st : ScanState) (i : Nat) : List Str → ScanState
  | [] => st
  | l :: rest => scanAux (processLine st i l).1 (i + 1) rest

/-- The final name-set state after scanning a document. -/
def scanState (doc : List Str) : ScanState := scanAux initState 0 doc

/-- Diagnostics of a list that report a duplicate of the name `n`. -/
def dupsFor (n : Str) (ds : List Diagnostic) : List Diagnostic :=
  ds.filter (fun d => d.msg = Msg.duplicateContextName n)

/-- The name the scan loop extracts from a line, when the line is
processed as a context header. -/
def lineHeaderName? (line : Str) : Option Str :=
  if trim line = [] then none
  else if (trim line).head? = some '#' then none
  else if (trim line).head? = some '[' ∧ (trim line).getLast? = some ']' then
    some (headerName (((trim line).drop 1).dropLast))
  else none

def nameLinesAux (n : Str) (i : Nat) : List Str → List Nat
  | [] => []
  | l :: rest =>
    (if lineHeaderName? l = some n then [i] else []) ++ nameLinesAux n (i + 1) rest

/-- The 0-based indices of the lines that are processed as context headers
with extracted name `n`. -/
def nameLines (doc : List Str) (n : Str) : List Nat := nameLinesAux n 0 doc

example : validateBlobifyFile [chars "[a]", chars "[b:a]", chars "[c:a,b]", chars "[b]"] =
    [⟨3, Msg.duplicateContextName (chars "b"), Severity.error⟩] := by decide

example : validateBlobifyFile [chars "[default:undefinedParent]"] =
    [⟨0, Msg.parentNotFound (chars "undefinedParent"), Severity.error⟩,
     ⟨0, Msg.cannotRedefineDefault, Severity.error⟩] := by decide

example : validateBlobifyFile [chars "[a:a]"] = [] := by decide

example : validateBlobifyFile [chars "[:p]"] = [] := by decide

example : validateBlobifyFile [chars "@filter=\"fn\",\"^\\\\s*def\\\\s+\",\"*.py\""] = [] := by
  decide

example : validateBlobifyFile [chars "@filter=legacyname:^def\\s+"] =
    [⟨0, Msg.considerCSV (chars "legacyname") (chars "^def\\s+"), Severity.information⟩] := by
  decide

example : optionDiags 0 (chars "@output-line-numbers=maybe") =
    [⟨0, Msg.boolOptionWarning (chars "output-line-numbers"), Severity.warning⟩] := by decide

example : optionDiags 0 (chars "@output-line-numbers=false") = [] := by decide

example : optionDiags 0 (chars "@some-future-option=anything") = [] := by decide

example : validateBlobifyFile [chars "[ a ]", chars "[a]"] = [] := by decide

lemma headerName_of_match {interior a b : Str} (h : matchHeadColonRest interior = some (a, b)) :
    headerName interior = trim a := by
  simp [headerName, h]

lemma headerName_of_nomatch {interior : Str} (h : matchHeadColonRest interior = none) :
    headerName interior = interior := by
  simp [headerName, h]

lemma headerParents_of_match {interior a b : Str} (h : matchHeadColonRest interior = some (a, b)) :
    headerParents interior = parseParentTokens b := by
  simp [headerParents, h]

lemma parentDiags_cons (i : Nat) (defs : List Str) (p : Str) (rest : List Str) :
    parentDiags i defs (p :: rest) =
      (if p ∈ defs then [] else [⟨i, Msg.parentNotFound p, Severity.error⟩]) ++
        parentDiags i defs rest := by
  by_cases h : p ∈ defs <;> simp [parentDiags, List.filterMap_cons, h]

lemma parentDiags_eq_nil (i : Nat) {defs parents : List Str} (h : ∀ p ∈ parents, p ∈ defs) :
    parentDiags i defs parents = [] := by
  simp only [parentDiags, List.filterMap_eq_nil_iff]
  intro p hp
  rw [if_pos (h p hp)]

lemma parentDiags_shape (i : Nat) (defs parents : List Str) :
    ∃ ps : List Str, parentDiags i defs parents =
      ps.map (fun p => ⟨i, Msg.parentNotFound p, Severity.error⟩) := by
  induction parents with
  | nil => exact ⟨[], rfl⟩
  | cons p rest ih =>
    obtain ⟨ps, hps⟩ := ih
    by_cases h : p ∈ defs
    · exact ⟨ps, by rw [parentDiags_cons, if_pos h, hps]; simp⟩
    · exact ⟨p :: ps, by rw [parentDiags_cons, if_neg h, hps]; simp⟩

lemma parentDiags_mem (i : Nat) (defs parents : List Str) :
    ∀ d ∈ parentDiags i defs parents, d.line = i ∧ ∃ p, d.msg = Msg.parentNotFound p := by
  intro d hd
  simp only [parentDiags, List.mem_filterMap] at hd
  obtain ⟨p, hp, he⟩ := hd
  split_ifs at he
  rw [Option.some_inj] at he
  exact ⟨by rw [← he], p, by rw [← he]⟩

lemma regexDiag_mem (i : Nat) (r : Except Str Unit) :
    ∀ d ∈ regexDiag i r, d.line = i ∧ ∃ m, d.msg = Msg.invalidRegex m := by
  intro d hd
  cases r with
  | ok u => simp [regexDiag] at hd
  | error m =>
    simp [regexDiag] at hd
    subst hd
    exact ⟨rfl, m, rfl⟩

lemma filterDiags_mem (i : Nat) (c : Str) :
    ∀ d ∈ filterDiags i c, d.line = i ∧ ∀ n, d.msg ≠ Msg.duplicateContextName n := by
  have hreg : ∀ r, ∀ d ∈ regexDiag i r, d.line = i ∧ ∀ n, d.msg ≠ Msg.duplicateContextName n := by
    intro r d hr
    obtain ⟨hl, m, hm⟩ := regexDiag_mem i r d hr
    refine ⟨hl, fun n => ?_⟩
    rw [hm]
    simp
  intro d hd
  unfold filterDiags at hd
  split at hd
  · split_ifs at hd
    · rcases List.mem_cons.mp hd with h | h
      · subst h
        exact ⟨rfl, fun n => by simp⟩
      · exact hreg _ d h
    · exact hreg _ d hd
    · rcases List.mem_cons.mp hd with h | h
      · subst h
        exact ⟨rfl, fun n => by simp⟩
      · simp at h
  · split at hd
    · split_ifs at hd
      · rcases List.mem_cons.mp hd with h | h
        · subst h
          exact ⟨rfl, fun n => by simp⟩
        · rcases List.mem_append.mp h with h' | h'
          · exact hreg _ d h'
          · rcases List.mem_cons.mp h' with h2 | h2
            · subst h2
              exact ⟨rfl, fun n => by simp⟩
            · simp at h2
      · rcases List.mem_append.mp hd with h | h
        · exact hreg _ d h
        · rcases List.mem_cons.mp h with h2 | h2
          · subst h2
            exact ⟨rfl, fun n => by simp⟩
          · simp at h2
    · rcases List.mem_cons.mp hd with h | h
      · subst h
        exact ⟨rfl, fun n => by simp⟩
      · simp at h

lemma optionDiags_mem (i : Nat) (t : Str) :
    ∀ d ∈ optionDiags i t, d.line = i ∧ ∀ n, d.msg ≠ Msg.duplicateContextName n := by
  intro d hd
  unfold optionDiags at hd
  split at hd
  · rcases List.mem_cons.mp hd with h | h
    · subst h
      exact ⟨rfl, fun n => by simp⟩
    · simp at h
  · rcases List.mem_append.mp hd with h | h
    · split at h
      · split_ifs at h
        · rcases List.mem_cons.mp h with h2 | h2
          · subst h2
            exact ⟨rfl, fun n => by simp⟩
          · simp at h2
        · simp at h
      · simp at h
    · split at h
      · split_ifs at h
        · rcases List.mem_cons.mp h with h2 | h2
          · subst h2
            exact ⟨rfl, fun n => by simp⟩
          · simp at h2
        · simp at h
      · simp at h

lemma processHeader_mem (st : ScanState) (i : Nat) (interior : Str) :
    ∀ d ∈ (processHeader st i interior).2, d.line = i := by
  intro d hd
  unfold processHeader at hd
  split at hd
  · split_ifs at hd
    · rcases List.mem_cons.mp hd with h | h
      · subst h
        rfl
      · simp at h
    · rcases List.mem_cons.mp hd with h | h
      · subst h
        rfl
      · simp at h
    · rcases List.mem_append.mp hd with h | h
      · exact (parentDiags_mem _ _ _ d h).1
      · rcases List.mem_cons.mp h with h2 | h2
        · subst h2
          rfl
        · simp at h2
    · rcases List.mem_append.mp hd with h | h
      · exact (parentDiags_mem _ _ _ d h).1
      · simp at h
  · split_ifs at hd
    · rcases List.mem_cons.mp hd with h | h
      · subst h
        rfl
      · simp at h
    · rcases List.mem_cons.mp hd with h | h
      · subst h
        rfl
      · simp at h
    · rcases List.mem_cons.mp hd with h | h
      · subst h
        rfl
      · simp at h
    · simp at hd

lemma processLine_mem (st : ScanState) (i : Nat) (l : Str) :
    ∀ d ∈ (processLine st i l).2, d.line = i := by
  intro d hd
  unfold processLine at hd
  split_ifs at hd
  · simp at hd
  · simp at hd
  · exact processHeader_mem _ _ _ d hd
  · exact (filterDiags_mem _ _ d hd).1
  · exact (optionDiags_mem _ _ d hd).1
  · rcases List.mem_cons.mp hd with h | h
    · subst h
      rfl
    · simp at h
  · simp at hd
  · rcases List.mem_cons.mp hd with h | h
    · subst h
      rfl
    · simp at h

lemma processHeader_some {interior a b : Str} (h : matchHeadColonRest interior = some (a, b))
    (st : ScanState) (i : Nat) :
    processHeader st i interior =
      if trim a = [] then
        (st, [⟨i, Msg.emptyContextName, Severity.error⟩])
      else if trim a ∈ st.contextNames then
        (st, [⟨i, Msg.duplicateContextName (trim a), Severity.error⟩])
      else
        (⟨trim a :: st.contextNames, trim a :: st.definedContexts⟩,
          parentDiags i (trim a :: st.definedContexts) (parseParentTokens b) ++
            (if trim a = chars "default" then [⟨i, Msg.cannotRedefineDefault, Severity.error⟩]
             else [])) := by
  simp [processHeader, h]

lemma processHeader_none {interior : Str} (h : matchHeadColonRest interior = none)
    (st : ScanState) (i : Nat) :
    processHeader st i interior =
      if interior = [] then
        (st, [⟨i, Msg.emptyContextName, Severity.error⟩])
      else if interior ∈ st.contextNames then
        (st, [⟨i, Msg.duplicateContextName interior, Severity.error⟩])
      else
        (⟨interior :: st.contextNames, interior :: st.definedContexts⟩,
          if interior = chars "default" then [⟨i, Msg.cannotRedefineDefault, Severity.error⟩]
          else []) := by
  simp [processHeader, h]

lemma pairwise_of_const_line (ds : List Diagnostic) (i : Nat) (h : ∀ d ∈ ds, d.line = i) :
    ds.Pairwise (fun d e => d.line ≤ e.line) := by
  induction ds with
  | nil => exact List.Pairwise.nil
  | cons d rest ih =>
    refine List.Pairwise.cons ?_ (ih ?_)
    · intro e he
      rw [h d (by simp), h e (by simp [he])]
    · intro e he
      exact h e (by simp [he])

lemma validateAux_line_ge : ∀ (doc : List Str) (st : ScanState) (i : Nat),
    ∀ d ∈ validateAux st i doc, i ≤ d.line := by
  intro doc
  induction doc with
  | nil =>
    intro st i d hd
    simp [validateAux] at hd
  | cons l rest ih =>
    intro st i d hd
    simp only [validateAux] at hd
    rcases List.mem_append.mp hd with h | h
    · exact (processLine_mem st i l d h).ge
    · exact Nat.le_of_succ_le (ih _ _ d h)

lemma validateAux_pairwise : ∀ (doc : List Str) (st : ScanState) (i : Nat),
    (validateAux st i doc).Pairwise (fun d e => d.line ≤ e.line) := by
  intro doc
  induction doc with
  | nil =>
    intro st i
    simp [validateAux]
  | cons l rest ih =>
    intro st i
    simp only [validateAux]
    rw [List.pairwise_append]
    refine ⟨pairwise_of_const_line _ i (processLine_mem st i l), ih _ _, ?_⟩
    intro a ha b hb
    rw [processLine_mem st i l a ha]
    exact Nat.le_of_succ_le (validateAux_line_ge rest _ (i + 1) b hb)

/-- Claim C1 (amended): a context-header line whose extracted name is the
reserved root `default`, when that name is not yet taken, yields exactly
one diagnostic — the `Cannot redefine` Error — provided every declared
parent token resolves against `default` and the already-defined contexts.
(With an undefined parent the line additionally yields one parent Error,
see the counterexample.) -/
theorem default_header_exactly_one_error_when_parents_defined
    (st : ScanState) (i : Nat) (interior : Str)
    (hname : headerName interior = chars "default")
    (hnew : chars "default" ∉ st.contextNames)
    (hpar : ∀ p ∈ headerParents interior, p ∈ chars "default" :: st.definedContexts) :
    (processHeader st i interior).2 = [⟨i, Msg.cannotRedefineDefault, Severity.error⟩] := by
  have hne : (chars "default" : Str) ≠ [] := by decide
  cases h : matchHeadColonRest interior with
  | none =>
    have hi : interior = chars "default" := by
      rw [← headerName_of_nomatch h]
      exact hname
    subst hi
    simp [processHeader, h, hne, hnew]
  | some p =>
    obtain ⟨a, b⟩ := p
    have hta : trim a = chars "default" := by
      rw [← headerName_of_match h]
      exact hname
    have hnil : parentDiags i (chars "default" :: st.definedContexts) (parseParentTokens b) = [] :=
      parentDiags_eq_nil i (fun q hq => hpar q (by rw [headerParents_of_match h]; exact hq))
    simp [processHeader, h, hta, hne, hnew, hnil]

/-- Claim C1 witness: `[default]` with no parents at the initial state. -/
theorem default_header_exactly_one_error_witness :
    (processHeader initState 0 (chars "default")).2 =
      [⟨0, Msg.cannotRedefineDefault, Severity.error⟩] :=
  default_header_exactly_one_error_when_parents_defined initState 0 (chars "default")
    (by decide) (by decide) (by decide)

/-- Claim C1 counterexample: `[default:undefinedParent]` yields two Error
diagnostics on its line (parent not found, then cannot redefine), not
exactly one. -/
theorem default_header_with_undefined_parent_two_errors :
    ((validateBlobifyFile [chars "[default:undefinedParent]"]).filter
        (fun d => d.severity = Severity.error)).length = 2 ∧
    validateBlobifyFile [chars "[default:undefinedParent]"] =
      [⟨0, Msg.parentNotFound (chars "undefinedParent"), Severity.error⟩,
       ⟨0, Msg.cannotRedefineDefault, Severity.error⟩] := by decide

/-- Claim C2: the code accepts `[a:a]` with no diagnostic — the header's
own name is added to the defined set before its parents are checked, so a
self-reference resolves even though `a` is not previously defined, in
contradiction with the validator's own message for this check. -/
theorem self_parent_header_accepted :
    validateBlobifyFile [chars "[a:a]"] = [] ∧
    (scanState [chars "[a:a]"]).definedContexts = [chars "a", chars "default"] := by decide

/-- Claim C3 (amended): a header whose interior is empty, or which matches
the inheritance form with a name part that trims to empty, yields exactly
one `Empty context name` Error and registers nothing.  (An interior that
merely begins with `:`, such as `[:p]`, does not match the inheritance
form and instead registers the verbatim nonempty name — see the
counterexample.) -/
theorem empty_name_cases_single_error
    (st : ScanState) (i : Nat) (interior : Str)
    (h : interior = [] ∨ ∃ a b, matchHeadColonRest interior = some (a, b) ∧ trim a = []) :
    processHeader st i interior = (st, [⟨i, Msg.emptyContextName, Severity.error⟩]) := by
  rcases h with h | ⟨a, b, hm, hta⟩
  · subst h
    have hnm : matchHeadColonRest ([] : Str) = none := by decide
    simp [processHeader, hnm]
  · simp [processHeader, hm, hta]

/-- Claim C3 witness: `[ :p]` — an inheritance-form interior whose name
part trims to empty. -/
theorem empty_name_cases_witness :
    processHeader initState 0 (chars " :p") =
      (initState, [⟨0, Msg.emptyContextName, Severity.error⟩]) :=
  empty_name_cases_single_error initState 0 (chars " :p")
    (Or.inr ⟨chars " ", chars "p", by decide, by decide⟩)

/-- Claim C3 counterexample: `[:p]` yields no diagnostic at all and
registers the context name `:p`, instead of the claimed single
`Empty context name` Error. -/
theorem colon_leading_interior_no_diagnostic :
    validateBlobifyFile [chars "[:p]"] = [] ∧
    (scanState [chars "[:p]"]).contextNames = [chars ":p"] := by decide

/-- Claim C4 (amended): within one context-header line, an empty-name or
duplicate-name diagnostic is the only diagnostic of its line, and every
parent-reference diagnostic precedes the redefinition-of-`default`
diagnostic (the redefinition check runs after the parent checks, see the
counterexample); across lines, diagnostics appear in ascending line
order. -/
theorem header_diagnostic_order :
    (∀ (st : ScanState) (i : Nat) (interior : Str),
      (processHeader st i interior).2 = [⟨i, Msg.emptyContextName, Severity.error⟩]
      ∨ (∃ n, (processHeader st i interior).2 = [⟨i, Msg.duplicateContextName n, Severity.error⟩])
      ∨ (∃ (ps : List Str) (tail : List Diagnostic), (processHeader st i interior).2 =
            ps.map (fun p => ⟨i, Msg.parentNotFound p, Severity.error⟩) ++ tail
          ∧ (tail = [] ∨ tail = [⟨i, Msg.cannotRedefineDefault, Severity.error⟩])))
    ∧ (∀ doc : List Str, (validateBlobifyFile doc).Pairwise (fun d e => d.line ≤ e.line)) := by
  constructor
  · intro st i interior
    cases h : matchHeadColonRest interior with
    | some p =>
      obtain ⟨a, b⟩ := p
      rw [processHeader_some h]
      split_ifs with h1 h2 h3
      · exact Or.inl rfl
      · exact Or.inr (Or.inl ⟨trim a, rfl⟩)
      · obtain ⟨ps, hps⟩ :=
          parentDiags_shape i (trim a :: st.definedContexts) (parseParentTokens b)
        exact Or.inr (Or.inr ⟨ps, [⟨i, Msg.cannotRedefineDefault, Severity.error⟩],
          by simp [hps], Or.inr rfl⟩)
      · obtain ⟨ps, hps⟩ :=
          parentDiags_shape i (trim a :: st.definedContexts) (parseParentTokens b)
        exact Or.inr (Or.inr ⟨ps, [], by simp [hps], Or.inl rfl⟩)
    | none =>
      rw [processHeader_none h]
      split_ifs with h1 h2 h3
      · exact Or.inl rfl
      · exact Or.inr (Or.inl ⟨interior, rfl⟩)
      · exact Or.inr (Or.inr ⟨[], [⟨i, Msg.cannotRedefineDefault, Severity.error⟩],
          by simp, Or.inr rfl⟩)
      · exact Or.inr (Or.inr ⟨[], [], by simp, Or.inl rfl⟩)
  · intro doc
    exact validateAux_pairwise doc initState 0

/-- Claim C4 counterexample: on `[default:zzz]` the redefinition-of-
`default` diagnostic (a name-validity diagnostic) is emitted after the
parent-reference diagnostic of the same line, not before it. -/
theorem redefine_default_follows_parent_diagnostic :
    validateBlobifyFile [chars "[default:zzz]"] =
      [⟨0, Msg.parentNotFound (chars "zzz"), Severity.error⟩,
       ⟨0, Msg.cannotRedefineDefault, Severity.error⟩] := by decide

lemma dupsFor_nil (n : Str) : dupsFor n [] = [] := rfl

lemma dupsFor_cons (n : Str) (d : Diagnostic) (ds : List Diagnostic) :
    dupsFor n (d :: ds) =
      (if d.msg = Msg.duplicateContextName n then [d] else []) ++ dupsFor n ds := by
  by_cases h : d.msg = Msg.duplicateContextName n <;> simp [dupsFor, List.filter_cons, h]

lemma dupsFor_append (n : Str) (l1 l2 : List Diagnostic) :
    dupsFor n (l1 ++ l2) = dupsFor n l1 ++ dupsFor n l2 := by
  simp [dupsFor, List.filter_append]

lemma dupsFor_eq_nil {n : Str} {ds : List Diagnostic}
    (h : ∀ d ∈ ds, ∀ m, d.msg ≠ Msg.duplicateContextName m) : dupsFor n ds = [] := by
  simp only [dupsFor, List.filter_eq_nil_iff]
  intro d hd
  simpa using h d hd n

lemma processHeader_names (st : ScanState) (i : Nat) (interior : Str) (n : Str) (hn : n ≠ []) :
    n ∈ (processHeader st i interior).1.contextNames ↔
      (n ∈ st.contextNames ∨ headerName interior = n) := by
  cases h : matchHeadColonRest interior with
  | some p =>
    obtain ⟨a, b⟩ := p
    rw [processHeader_some h, headerName_of_match h]
    by_cases h1 : trim a = []
    · rw [if_pos h1]
      have hne : ¬(trim a = n) := fun he => hn (he.symm.trans h1)
      simp [hne]
    · rw [if_neg h1]
      by_cases h2 : trim a ∈ st.contextNames
      · rw [if_pos h2]
        show n ∈ st.contextNames ↔ n ∈ st.contextNames ∨ trim a = n
        constructor
        · exact Or.inl
        · rintro (hm | hm)
          · exact hm
          · exact hm ▸ h2
      · rw [if_neg h2]
        show n ∈ trim a :: st.contextNames ↔ n ∈ st.contextNames ∨ trim a = n
        constructor
        · intro hm
          rcases List.mem_cons.mp hm with hm | hm
          · exact Or.inr hm.symm
          · exact Or.inl hm
        · intro hm
          rcases hm with hm | hm
          · exact List.mem_cons.mpr (Or.inr hm)
          · exact List.mem_cons.mpr (Or.inl hm.symm)
  | none =>
    rw [processHeader_none h, headerName_of_nomatch h]
    by_cases h1 : interior = []
    · rw [if_pos h1]
      have hne : ¬(interior = n) := fun he => hn (he.symm.trans h1)
      simp [hne]
    · rw [if_neg h1]
      by_cases h2 : interior ∈ st.contextNames
      · rw [if_pos h2]
        show n ∈ st.contextNames ↔ n ∈ st.contextNames ∨ interior = n
        constructor
        · exact Or.inl
        · rintro (hm | hm)
          · exact hm
          · exact hm ▸ h2
      · rw [if_neg h2]
        show n ∈ interior :: st.contextNames ↔ n ∈ st.contextNames ∨ interior = n
        constructor
        · intro hm
          rcases List.mem_cons.mp hm with hm | hm
          · exact Or.inr hm.symm
          · exact Or.inl hm
        · intro hm
          rcases hm with hm | hm
          · exact List.mem_cons.mpr (Or.inr hm)
          · exact List.mem_cons.mpr (Or.inl hm.symm)

lemma processHeader_dups (st : ScanState) (i : Nat) (interior : Str) (n : Str) (hn : n ≠ []) :
    dupsFor n (processHeader st i interior).2 =
      if headerName interior = n ∧ n ∈ st.contextNames
      then [⟨i, Msg.duplicateContextName n, Severity.error⟩] else [] := by
  cases h : matchHeadColonRest interior with
  | some p =>
    obtain ⟨a, b⟩ := p
    rw [processHeader_some h, headerName_of_match h]
    by_cases h1 : trim a = []
    · rw [if_pos h1]
      have hne : ¬(trim a = n) := fun he => hn (he.symm.trans h1)
      rw [if_neg (fun hc => hne hc.1)]
      show dupsFor n [⟨i, Msg.emptyContextName, Severity.error⟩] = []
      simp [dupsFor_cons, dupsFor_nil]
    · rw [if_neg h1]
      by_cases h2 : trim a ∈ st.contextNames
      · rw [if_pos h2]
        show dupsFor n [⟨i, Msg.duplicateContextName (trim a), Severity.error⟩] = _
        by_cases hh : trim a = n
        · subst hh
          rw [if_pos ⟨rfl, h2⟩]
          simp [dupsFor_cons, dupsFor_nil]
        · rw [if_neg (fun hc => hh hc.1)]
          simp [dupsFor_cons, dupsFor_nil, hh]
      · rw [if_neg h2]
        have hcond : ¬(trim a = n ∧ n ∈ st.contextNames) := by
          rintro ⟨he, hmem⟩
          exact h2 (by rw [he]; exact hmem)
        rw [if_neg hcond]
        show dupsFor n
          (parentDiags i (trim a :: st.definedContexts) (parseParentTokens b) ++
            (if trim a = chars "default" then [⟨i, Msg.cannotRedefineDefault, Severity.error⟩]
             else [])) = []
        have hpd : dupsFor n
            (parentDiags i (trim a :: st.definedContexts) (parseParentTokens b)) = [] :=
          dupsFor_eq_nil (fun d hd m => by
            obtain ⟨_, p, hp⟩ := parentDiags_mem _ _ _ d hd
            rw [hp]
            simp)
        rw [dupsFor_append, hpd]
        by_cases h3 : trim a = chars "default"
        · rw [if_pos h3]
          simp [dupsFor_cons, dupsFor_nil]
        · rw [if_neg h3]
          simp [dupsFor_nil]
  | none =>
    rw [processHeader_none h, headerName_of_nomatch h]
    by_cases h1 : interior = []
    · rw [if_pos h1]
      have hne : ¬(interior = n) := fun he => hn (he.symm.trans h1)
      rw [if_neg (fun hc => hne hc.1)]
      show dupsFor n [⟨i, Msg.emptyContextName, Severity.error⟩] = []
      simp [dupsFor_cons, dupsFor_nil]
    · rw [if_neg h1]
      by_cases h2 : interior ∈ st.contextNames
      · rw [if_pos h2]
        show dupsFor n [⟨i, Msg.duplicateContextName interior, Severity.error⟩] = _
        by_cases hh : interior = n
        · subst hh
          rw [if_pos ⟨rfl, h2⟩]
          simp [dupsFor_cons, dupsFor_nil]
        · rw [if_neg (fun hc => hh hc.1)]
          simp [dupsFor_cons, dupsFor_nil, hh]
      · rw [if_neg h2]
        have hcond : ¬(interior = n ∧ n ∈ st.contextNames) := by
          rintro ⟨he, hmem⟩
          exact h2 (by rw [he]; exact hmem)
        rw [if_neg hcond]
        show dupsFor n
          (if interior = chars "default" then [⟨i, Msg.cannotRedefineDefault, Severity.error⟩]
           else []) = []
        by_cases h3 : interior = chars "default"
        · rw [if_pos h3]
          simp [dupsFor_cons, dupsFor_nil]
        · rw [if_neg h3]
          simp [dupsFor_nil]

lemma lineHeaderName?_blank {l : Str} (h1 : trim l = []) : lineHeaderName? l = none := by
  unfold lineHeaderName?
  rw [if_pos h1]

lemma lineHeaderName?_comment {l : Str} (h1 : ¬trim l = [])
    (h2 : (trim l).head? = some '#') : lineHeaderName? l = none := by
  unfold lineHeaderName?
  rw [if_neg h1, if_pos h2]

lemma lineHeaderName?_header {l : Str} (h1 : ¬trim l = []) (h2 : ¬(trim l).head? = some '#')
    (h3 : (trim l).head? = some '[' ∧ (trim l).getLast? = some ']') :
    lineHeaderName? l = some (headerName (((trim l).drop 1).dropLast)) := by
  unfold lineHeaderName?
  rw [if_neg h1, if_neg h2, if_pos h3]

lemma lineHeaderName?_other {l : Str} (h1 : ¬trim l = []) (h2 : ¬(trim l).head? = some '#')
    (h3 : ¬((trim l).head? = some '[' ∧ (trim l).getLast? = some ']')) :
    lineHeaderName? l = none := by
  unfold lineHeaderName?
  rw [if_neg h1, if_neg h2, if_neg h3]

lemma processLine_names (st : ScanState) (i : Nat) (l : Str) (n : Str) (hn : n ≠ []) :
    n ∈ (processLine st i l).1.contextNames ↔
      (n ∈ st.contextNames ∨ lineHeaderName? l = some n) := by
  unfold processLine
  by_cases c1 : trim l = []
  · rw [if_pos c1, lineHeaderName?_blank c1]
    simp
  · rw [if_neg c1]
    by_cases c2 : (trim l).head? = some '#'
    · rw [if_pos c2, lineHeaderName?_comment c1 c2]
      simp
    · rw [if_neg c2]
      by_cases c3 : (trim l).head? = some '[' ∧ (trim l).getLast? = some ']'
      · rw [if_pos c3, lineHeaderName?_header c1 c2 c3, processHeader_names st i _ n hn]
        simp
      · rw [if_neg c3, lineHeaderName?_other c1 c2 c3]
        by_cases c4 : (chars "@filter=").isPrefixOf (trim l) = true
        · rw [if_pos c4]
          simp
        · rw [if_neg c4]
          by_cases c5 : (trim l).head? = some '@'
          · rw [if_pos c5]
            simp
          · rw [if_neg c5]
            by_cases c6 : (trim l).head? = some '+' ∨ (trim l).head? = some '-'
            · rw [if_pos c6]
              simp
            · rw [if_neg c6]
              simp

lemma processLine_dups (st : ScanState) (i : Nat) (l : Str) (n : Str) (hn : n ≠ []) :
    dupsFor n (processLine st i l).2 =
      if lineHeaderName? l = some n ∧ n ∈ st.contextNames
      then [⟨i, Msg.duplicateContextName n, Severity.error⟩] else [] := by
  unfold processLine
  by_cases c1 : trim l = []
  · rw [if_pos c1, lineHeaderName?_blank c1]
    simp [dupsFor_nil]
  · rw [if_neg c1]
    by_cases c2 : (trim l).head? = some '#'
    · rw [if_pos c2, lineHeaderName?_comment c1 c2]
      simp [dupsFor_nil]
    · rw [if_neg c2]
      by_cases c3 : (trim l).head? = some '[' ∧ (trim l).getLast? = some ']'
      · rw [if_pos c3, lineHeaderName?_header c1 c2 c3, processHeader_dups st i _ n hn]
        simp
      · rw [if_neg c3, lineHeaderName?_other c1 c2 c3]
        by_cases c4 : (chars "@filter=").isPrefixOf (trim l) = true
        · rw [if_pos c4]
          have hnil : dupsFor n (filterDiags i ((trim l).drop 8)) = [] :=
            dupsFor_eq_nil (fun d hd m => (filterDiags_mem _ _ d hd).2 m)
          simp [hnil]
        · rw [if_neg c4]
          by_cases c5 : (trim l).head? = some '@'
          · rw [if_pos c5]
            have hnil : dupsFor n (optionDiags i (trim l)) = [] :=
              dupsFor_eq_nil (fun d hd m => (optionDiags_mem _ _ d hd).2 m)
            simp [hnil]
          · rw [if_neg c5]
            by_cases c6 : (trim l).head? = some '+' ∨ (trim l).head? = some '-'
            · rw [if_pos c6]
              by_cases c7 : trim ((trim l).drop 1) = []
              · rw [if_pos c7]
                simp [dupsFor_cons, dupsFor_nil]
              · rw [if_neg c7]
                simp [dupsFor_nil]
            · rw [if_neg c6]
              simp [dupsFor_cons, dupsFor_nil]

lemma validateAux_dups : ∀ (doc : List Str) (st : ScanState) (i : Nat) (n : Str), n ≠ [] →
    dupsFor n (validateAux st i doc) =
      (if n ∈ st.contextNames then nameLinesAux n i doc
       else (nameLinesAux n i doc).tail).map
        (fun j => ⟨j, Msg.duplicateContextName n, Severity.error⟩) := by
  intro doc
  induction doc with
  | nil =>
    intro st i n hn
    simp only [validateAux, nameLinesAux]
    rw [dupsFor_nil]
    split_ifs <;> simp
  | cons l rest ih =>
    intro st i n hn
    simp only [validateAux, nameLinesAux]
    rw [dupsFor_append, processLine_dups st i l n hn, ih _ _ n hn]
    by_cases hmem : n ∈ st.contextNames
    · have hst : n ∈ (processLine st i l).1.contextNames :=
        (processLine_names st i l n hn).mpr (Or.inl hmem)
      by_cases hline : lineHeaderName? l = some n
      · simp [hline, hmem, hst]
      · simp [hline, hmem, hst]
    · by_cases hline : lineHeaderName? l = some n
      · have hst : n ∈ (processLine st i l).1.contextNames :=
          (processLine_names st i l n hn).mpr (Or.inr hline)
        simp [hline, hmem, hst]
      · have hst : n ∉ (processLine st i l).1.contextNames := by
          rw [processLine_names st i l n hn]
          rintro (h | h)
          · exact hmem h
          · exact hline h
        simp [hline, hmem, hst]

/-- Claim C5: in any document whose context headers define a (nonempty)
name exactly twice, exactly one Duplicate-name Error is produced for that
name, on the line of the second occurrence; in particular the document
`["[a]", "[b:a]", "[c:a,b]", "[b]"]` yields exactly one diagnostic:
a Duplicate-name Error for `b` on line 3. -/
theorem duplicate_name_reported_on_second_occurrence :
    (∀ (doc : List Str) (n : Str) (j1 j2 : Nat), n ≠ [] → nameLines doc n = [j1, j2] →
      dupsFor n (validateBlobifyFile doc) =
        [⟨j2, Msg.duplicateContextName n, Severity.error⟩])
    ∧ validateBlobifyFile [chars "[a]", chars "[b:a]", chars "[c:a,b]", chars "[b]"] =
        [⟨3, Msg.duplicateContextName (chars "b"), Severity.error⟩] := by
  constructor
  · intro doc n j1 j2 hn hocc
    unfold validateBlobifyFile
    rw [validateAux_dups doc initState 0 n hn]
    have hni : n ∉ initState.contextNames := by simp [initState]
    rw [if_neg hni]
    rw [show nameLinesAux n 0 doc = [j1, j2] from hocc]
    simp
  · decide

/-- Claim C5 witness: the end-to-end document, via the general theorem at
name `b` with occurrences on lines 1 and 3. -/
theorem duplicate_name_witness :
    dupsFor (chars "b")
        (validateBlobifyFile [chars "[a]", chars "[b:a]", chars "[c:a,b]", chars "[b]"]) =
      [⟨3, Msg.duplicateContextName (chars "b"), Severity.error⟩] :=
  duplicate_name_reported_on_second_occurrence.1
    [chars "[a]", chars "[b:a]", chars "[c:a,b]", chars "[b]"] (chars "b") 1 3
    (by decide) (by decide)

lemma parseFilterCSV_spec {c : Str} {row : List Str} (h : parseFilterCSV c = some row) :
    (2 ≤ row.length ∧ row.length ≤ 3) ∧ ∀ f ∈ row, ¬trim f = [] := by
  unfold parseFilterCSV at h
  split_ifs at h
  split at h
  · exact absurd h (by simp)
  · split_ifs at h with h1 h2
    injection h with h
    subst h
    refine ⟨h1, ?_⟩
    intro f hf hblank
    exact h2 (List.any_eq_true.mpr ⟨f, hf, by simp [hblank]⟩)

lemma filterDiags_csv_eq {content : Str} {row : List Str}
    (h : parseFilterCSV content = some row) (i : Nat) :
    filterDiags i content = regexDiag i (regexCompile (unescapeBackslashes (row.getD 1 []))) := by
  obtain ⟨hlen, hblank⟩ := parseFilterCSV_spec h
  have hmem0 : row.getD 0 [] ∈ row := by
    cases row with
    | nil => simp at hlen
    | cons f rest => exact List.mem_cons_self f rest
  have heq : filterDiags i content =
      (if trim (row.getD 0 []) = [] then [⟨i, Msg.filterNameEmpty, Severity.error⟩] else []) ++
        regexDiag i (regexCompile (unescapeBackslashes (row.getD 1 []))) := by
    simp [filterDiags, h, hlen]
  rw [heq, if_neg (hblank _ hmem0)]
  simp

lemma filterDiags_legacy_eq {content fn rx : Str} (hcsv : parseFilterCSV content = none)
    (hm : matchHeadColonRest content = some (fn, rx)) (i : Nat) :
    filterDiags i content =
      (if trim fn = [] then [⟨i, Msg.filterNameEmpty, Severity.error⟩] else []) ++
        regexDiag i (regexCompile rx) ++
        [⟨i, Msg.considerCSV fn rx, Severity.information⟩] := by
  simp [filterDiags, hcsv, hm]

/-- Claim C6: for a filter line whose content parses as CSV, the
diagnostics are exactly those of compiling the regex field after one round
of doubled-backslash unescaping (a compile failure contributes one Error
carrying the engine's message, success contributes nothing); the example
line with doubled backslashes validates with no diagnostic, its regex
source un-escaping to single backslashes. -/
theorem csv_filter_regex_validation :
    (∀ (i : Nat) (content : Str) (row : List Str), parseFilterCSV content = some row →
      filterDiags i content = regexDiag i (regexCompile (unescapeBackslashes (row.getD 1 []))))
    ∧ validateBlobifyFile [chars "@filter=\"fn\",\"^\\\\s*def\\\\s+\",\"*.py\""] = []
    ∧ unescapeBackslashes (chars "^\\\\s*def\\\\s+") = chars "^\\s*def\\s+" := by
  refine ⟨?_, by decide, by decide⟩
  intro i content row h
  exact filterDiags_csv_eq h i

/-- Claim C6 witness: the general equation at the example content, whose
CSV parse yields the fields `fn`, `^\s*def\s+` (escape processing), and
`*.py`. -/
theorem csv_filter_regex_witness :
    filterDiags 0 (chars "\"fn\",\"^\\\\s*def\\\\s+\",\"*.py\"") =
      regexDiag 0 (regexCompile (unescapeBackslashes
        (([chars "fn", chars "^\\s*def\\s+", chars "*.py"] : List Str).getD 1 []))) :=
  csv_filter_regex_validation.1 0 (chars "\"fn\",\"^\\\\s*def\\\\s+\",\"*.py\"")
    [chars "fn", chars "^\\s*def\\s+", chars "*.py"] (by decide)

/-- Claim C7: a filter line whose content fails the CSV parse but matches
the legacy `name:regex` form with a non-blank name and a compilable regex
(taken verbatim) yields zero Errors and exactly one Information-severity
migration suggestion; so does the example `@filter=legacyname:^def\s+`. -/
theorem legacy_filter_information_only :
    (∀ (i : Nat) (content fn rx : Str),
      parseFilterCSV content = none → matchHeadColonRest content = some (fn, rx) →
      ¬trim fn = [] → regexCompile rx = Except.ok () →
      filterDiags i content = [⟨i, Msg.considerCSV fn rx, Severity.information⟩])
    ∧ validateBlobifyFile [chars "@filter=legacyname:^def\\s+"] =
        [⟨0, Msg.considerCSV (chars "legacyname") (chars "^def\\s+"), Severity.information⟩] := by
  refine ⟨?_, by decide⟩
  intro i content fn rx hcsv hm hname hok
  rw [filterDiags_legacy_eq hcsv hm, if_neg hname, hok]
  simp [regexDiag]

/-- Claim C7 witness: the example content after the `@filter=` marker. -/
theorem legacy_filter_information_witness :
    filterDiags 0 (chars "legacyname:^def\\s+") =
      [⟨0, Msg.considerCSV (chars "legacyname") (chars "^def\\s+"), Severity.information⟩] :=
  legacy_filter_information_only.1 0 (chars "legacyname:^def\\s+")
    (chars "legacyname") (chars "^def\\s+") (by decide) (by decide) (by decide) (by rfl)

lemma optSplit (name v : Str) (hname : ∀ c ∈ name, optChar c = true) :
    (name ++ '=' :: v).takeWhile optChar = name ∧
    (name ++ '=' :: v).dropWhile optChar = '=' :: v := by
  have h0 : optChar '=' = false := by decide
  induction name with
  | nil =>
    constructor
    · simp [List.takeWhile_cons, h0]
    · simp [List.dropWhile_cons, h0]
  | cons c rest ih =>
    have hc : optChar c = true := hname c (by simp)
    obtain ⟨h1, h2⟩ := ih (fun d hd => hname d (by simp [hd]))
    constructor
    · simp [List.takeWhile_cons, hc, h1]
    · simp [List.dropWhile_cons, hc, h2]

lemma optionMatch_eq {name v : Str} (hname : ∀ c ∈ name, optChar c = true) (hne : name ≠ [])
    (hv : v ≠ []) :
    optionMatch ('@' :: (name ++ '=' :: v)) = some (name, some v) := by
  obtain ⟨ht, hd⟩ := optSplit name v hname
  simp [optionMatch, ht, hd, hne, hv]

/-- Claim C8: for a non-filter option line `@name=value` (identifier
characters, nonempty value): a boolean-option name with a value other than
the literals `true`/`false` yields exactly one Warning; a boolean-option
name with value `true` or `false` yields nothing; a name outside the
boolean set and distinct from `list-patterns` yields nothing at all. -/
theorem boolean_and_unknown_option_diagnostics :
    (∀ (i : Nat) (name v : Str), (∀ c ∈ name, optChar c = true) → name ≠ [] → v ≠ [] →
      name ∈ booleanOptions → v ≠ chars "true" → v ≠ chars "false" →
      optionDiags i ('@' :: (name ++ '=' :: v)) =
        [⟨i, Msg.boolOptionWarning name, Severity.warning⟩])
    ∧ (∀ (i : Nat) (name v : Str), (∀ c ∈ name, optChar c = true) → name ≠ [] →
      name ∈ booleanOptions → (v = chars "true" ∨ v = chars "false") →
      optionDiags i ('@' :: (name ++ '=' :: v)) = [])
    ∧ (∀ (i : Nat) (name v : Str), (∀ c ∈ name, optChar c = true) → name ≠ [] → v ≠ [] →
      name ∉ booleanOptions → name ≠ chars "list-patterns" →
      optionDiags i ('@' :: (name ++ '=' :: v)) = []) := by
  refine ⟨?_, ?_, ?_⟩
  · intro i name v hchars hne hv hb ht hf
    have hb' := hb
    simp only [booleanOptions, List.mem_cons, List.not_mem_nil, or_false] at hb'
    have hlp : name ≠ chars "list-patterns" := by
      rcases hb' with rfl | rfl | rfl | rfl | rfl | rfl | rfl | rfl | rfl <;> decide
    simp [optionDiags, optionMatch_eq hchars hne hv, hb, ht, hf, hlp]
  · intro i name v hchars hne hb hv
    have hb' := hb
    simp only [booleanOptions, List.mem_cons, List.not_mem_nil, or_false] at hb'
    have hlp : name ≠ chars "list-patterns" := by
      rcases hb' with rfl | rfl | rfl | rfl | rfl | rfl | rfl | rfl | rfl <;> decide
    rcases hv with rfl | rfl
    · simp [optionDiags, optionMatch_eq hchars hne (by decide : chars "true" ≠ []), hlp]
    · simp [optionDiags, optionMatch_eq hchars hne (by decide : chars "false" ≠ []), hlp]
  · intro i name v hchars hne hv hb hlp
    simp [optionDiags, optionMatch_eq hchars hne hv, hb, hlp]

/-- Claim C8 witness: `@output-line-numbers=maybe` warns once;
`@output-line-numbers=false` and `@some-future-option=anything` are
silent. -/
theorem option_diagnostics_witness :
    optionDiags 0 ('@' :: (chars "output-line-numbers" ++ '=' :: chars "maybe")) =
      [⟨0, Msg.boolOptionWarning (chars "output-line-numbers"), Severity.warning⟩] ∧
    optionDiags 1 ('@' :: (chars "output-line-numbers" ++ '=' :: chars "false")) = [] ∧
    optionDiags 2 ('@' :: (chars "some-future-option" ++ '=' :: chars "anything")) = [] :=
  ⟨boolean_and_unknown_option_diagnostics.1 0 (chars "output-line-numbers") (chars "maybe")
      (by decide) (by decide) (by decide) (by decide) (by decide) (by decide),
   boolean_and_unknown_option_diagnostics.2.1 1 (chars "output-line-numbers") (chars "false")
      (by decide) (by decide) (by decide) (Or.inr rfl),
   boolean_and_unknown_option_diagnostics.2.2 2 (chars "some-future-option") (chars "anything")
      (by decide) (by decide) (by decide) (by decide) (by decide)⟩

/-- Claim C9: a header without the inheritance form registers its interior
verbatim (no trimming) while the inheritance form registers the trimmed
name part; consequently `[ a ]` and `[a]` register the distinct names
` a ` and `a`, and the second triggers no Duplicate-name Error. -/
theorem header_name_trimming :
    (∀ (st : ScanState) (i : Nat) (interior : Str), matchHeadColonRest interior = none →
      interior ≠ [] → interior ∉ st.contextNames →
      (processHeader st i interior).1.contextNames = interior :: st.contextNames)
    ∧ (∀ (st : ScanState) (i : Nat) (interior a b : Str),
      matchHeadColonRest interior = some (a, b) → trim a ≠ [] → trim a ∉ st.contextNames →
      (processHeader st i interior).1.contextNames = trim a :: st.contextNames)
    ∧ validateBlobifyFile [chars "[ a ]", chars "[a]"] = []
    ∧ (scanState [chars "[ a ]", chars "[a]"]).contextNames = [chars "a", chars " a "] := by
  refine ⟨?_, ?_, by decide, by decide⟩
  · intro st i interior h hne hmem
    rw [processHeader_none h, if_neg hne, if_neg hmem]
  · intro st i interior a b h hne hmem
    rw [processHeader_some h, if_neg hne, if_neg hmem]

/-- Claim C9 witness: the interior ` a ` of `[ a ]` is registered with its
surrounding spaces kept. -/
theorem header_name_trimming_witness :
    (processHeader initState 0 (chars " a ")).1.contextNames = chars " a " :: initState.contextNames :=
  header_name_trimming.1 initState 0 (chars " a ") (by decide) (by decide) (by decide)

/-- Claim C10: whenever the CSV parse of a filter line succeeds, the first
field is non-blank (the parser rejects records with a field that is empty
after trimming), so the CSV branch can never emit the
`Filter name cannot be empty` Error. -/
theorem csv_branch_filter_name_nonblank :
    (∀ (content : Str) (row : List Str), parseFilterCSV content = some row →
      ¬trim (row.getD 0 []) = [])
    ∧ (∀ (i : Nat) (content : Str) (row : List Str), parseFilterCSV content = some row →
      (⟨i, Msg.filterNameEmpty, Severity.error⟩ : Diagnostic) ∉ filterDiags i content) := by
  constructor
  · intro content row h
    obtain ⟨hlen, hblank⟩ := parseFilterCSV_spec h
    refine hblank _ ?_
    cases row with
    | nil => simp at hlen
    | cons f rest => exact List.mem_cons_self f rest
  · intro i content row h hmem
    rw [filterDiags_csv_eq h i] at hmem
    obtain ⟨_, m, hm⟩ := regexDiag_mem _ _ _ hmem
    simp at hm

/-- Claim C10 witness: the content `"a","b"` parses as CSV with first
field `a`. -/
theorem csv_branch_filter_name_witness :
    ¬trim (([chars "a", chars "b"] : List Str).getD 0 []) = [] ∧
    (⟨0, Msg.filterNameEmpty, Severity.error⟩ : Diagnostic) ∉
      filterDiags 0 (chars "\"a\",\"b\"") :=
  ⟨csv_branch_filter_name_nonblank.1 (chars "\"a\",\"b\"") [chars "a", chars "b"] (by decide),
   csv_branch_filter_name_nonblank.2 0 (chars "\"a\",\"b\"") [chars "a", chars "b"] (by decide)⟩
